import Mathlib

/-!
Shallow embedding of the `interest` request-processing pipeline:
the `Processor` four-phase middleware orchestration
(`src/interest/processor/processor.py`), the `Middleware` default
continuation (`src/interest/middleware.py`), the ordered observable
registry `Chain` (`src/interest/helpers/chain.py`), and the broken
`SystemMiddleware.__init__` (`src/interest/system.py`).

Python exceptions are modelled with `Except Err`; coroutine suspension is
inessential to the properties and is erased (each hook is a function that
either returns a value or raises).  Python machine-level details do not
arise: the only numeric data are list indices, modelled by `Int`/`Nat`.
-/

namespace Interest

/-- Errors raised by the embedded code: `TypeError` (contract violation in
`process_reply`, and the broken `super.__init__` call), `KeyError` carrying
the requested key, `IndexError` from positional list access, and an error
raised by a middleware hook or listener, carrying a tag. -/
inductive Err where
  | typeError (msg : String) : Err
  | keyError (key : String) : Err
  | indexError : Err
  | hookError (tag : String) : Err
deriving Repr, DecidableEq

/-- A reply value threaded through `process_reply`: either still an
intermediate data payload, or already a final `aiohttp.web.Response`.
`isinstance(reply, Response)` is `Reply.isResponse`. -/
inductive Reply (Data Resp : Type) where
  | data : Data → Reply Data Resp
  | response : Resp → Reply Data Resp
deriving Repr, DecidableEq

/-- Model of `isinstance(reply, Response)`. -/
def Reply.isResponse {Data Resp : Type} : Reply Data Resp → Bool
  | .response _ => true
  | .data _ => false

/-- A middleware instance as the Processor probes it: each of the four
phase hooks is optionally present (`hasattr(middleware, 'process_*')` is
`Option.isSome`), and an implemented hook either returns the transformed
value or raises. -/
structure Middleware (Req Data Resp Exc : Type) where
  processRequest? : Option (Req → Except Err Req)
  processData? : Option (Req → Reply Data Resp → Except Err (Reply Data Resp))
  processResponse? : Option (Req → Resp → Except Err Resp)
  processException? : Option (Req → Exc → Except Err Exc)

/-- A Processor: the owning service and the ordered middleware list
(registration order). -/
structure Processor (S Req Data Resp Exc : Type) where
  service : S
  middlewares : List (Middleware Req Data Resp Exc)

/-- Loop body of `Processor.process_request`: iterate middlewares in
registration order; every middleware implementing `process_request`
replaces the running request with its hook's return value; a raising hook
aborts immediately. -/
def processRequestGo {Req Data Resp Exc : Type}
    (ms : List (Middleware Req Data Resp Exc)) (req : Req) : Except Err Req :=
  match ms with
  | [] => .ok req
  | m :: rest =>
    match m.processRequest? with
    | none => processRequestGo rest req
    | some h =>
      match h req with
      | .ok req' => processRequestGo rest req'
      | .error e => .error e

/-- `Processor.process_request(request)`. -/
def Processor.processRequest {S Req Data Resp Exc : Type}
    (p : Processor S Req Data Resp Exc) (req : Req) : Except Err Req :=
  processRequestGo p.middlewares req

/-- Loop of `Processor.process_reply`: iterate middlewares in registration
order; before each middleware, if the carried reply is already a
`Response` the loop breaks; otherwise a middleware implementing
`process_data` replaces the reply with its hook's return value. -/
def processReplyGo {Req Data Resp Exc : Type}
    (ms : List (Middleware Req Data Resp Exc)) (req : Req)
    (reply : Reply Data Resp) : Except Err (Reply Data Resp) :=
  match ms with
  | [] => .ok reply
  | m :: rest =>
    if reply.isResponse then .ok reply
    else
      match m.processData? with
      | none => processReplyGo rest req reply
      | some h =>
        match h req reply with
        | .ok reply' => processReplyGo rest req reply'
        | .error e => .error e

/-- `Processor.process_reply(request, reply)`: run the loop, then require
the carried value to be a `Response`, raising `TypeError` otherwise. -/
def Processor.processReply {S Req Data Resp Exc : Type}
    (p : Processor S Req Data Resp Exc) (req : Req)
    (reply : Reply Data Resp) : Except Err Resp :=
  match processReplyGo p.middlewares req reply with
  | .error e => .error e
  | .ok (.response resp) => .ok resp
  | .ok (.data _) =>
    .error (.typeError "Middlewares have not properly converted data to response")

/-- Loop body shared by `process_response` over an already-reversed list:
every middleware implementing `process_response` transforms the running
response, unconditionally. -/
def processResponseGo {Req Data Resp Exc : Type}
    (ms : List (Middleware Req Data Resp Exc)) (req : Req) (resp : Resp) :
    Except Err Resp :=
  match ms with
  | [] => .ok resp
  | m :: rest =>
    match m.processResponse? with
    | none => processResponseGo rest req resp
    | some h =>
      match h req resp with
      | .ok resp' => processResponseGo rest req resp'
      | .error e => .error e

/-- `Processor.process_response(request, response)`: iterate
`reversed(self.middlewares)`. -/
def Processor.processResponse {S Req Data Resp Exc : Type}
    (p : Processor S Req Data Resp Exc) (req : Req) (resp : Resp) :
    Except Err Resp :=
  processResponseGo p.middlewares.reverse req resp

/-- Loop body of `process_exception` over an already-reversed list:
every middleware implementing `process_exception` transforms the running
exception, unconditionally. -/
def processExceptionGo {Req Data Resp Exc : Type}
    (ms : List (Middleware Req Data Resp Exc)) (req : Req) (exc : Exc) :
    Except Err Exc :=
  match ms with
  | [] => .ok exc
  | m :: rest =>
    match m.processException? with
    | none => processExceptionGo rest req exc
    | some h =>
      match h req exc with
      | .ok exc' => processExceptionGo rest req exc'
      | .error e => .error e

/-- `Processor.process_exception(request, exception)`: iterate
`reversed(self.middlewares)`. -/
def Processor.processException {S Req Data Resp Exc : Type}
    (p : Processor S Req Data Resp Exc) (req : Req) (exc : Exc) :
    Except Err Exc :=
  processExceptionGo p.middlewares.reverse req exc

/-- An attribute value found in `vars(source)` during bulk registration:
either a type that is a `Middleware` subclass (modelled as its constructor,
a function from the service to an instance), or any other attribute
(a non-type, or a type not subclassing `Middleware`). -/
inductive Attr (S M : Type) where
  | mwType : (S → M) → Attr S M
  | other : Attr S M

/-- One iteration of the registration loop of `add_middleware`:
`middleware = middleware(self.service); self.middlewares.append(middleware)`. -/
def registerType {S Req Data Resp Exc : Type}
    (q : Processor S Req Data Resp Exc)
    (t : S → Middleware Req Data Resp Exc) : Processor S Req Data Resp Exc :=
  { q with middlewares := q.middlewares ++ [t q.service] }

/-- One iteration of the bulk-registration loop over `vars(source)`:
a `Middleware`-subclass attribute is registered through the recursive
`self.add_middleware(middleware)` call (which appends one instance bound
to the service); every other attribute is silently ignored. -/
def registerAttr {S Req Data Resp Exc : Type}
    (q : Processor S Req Data Resp Exc)
    (a : Attr S (Middleware Req Data Resp Exc)) : Processor S Req Data Resp Exc :=
  match a with
  | .mwType t => registerType q t
  | .other => q

/-- `Processor.add_middleware(*middlewares, source=None)`: instantiate
each explicitly given middleware type bound to the service and append it,
in the order given; then, when a source is given, walk the attributes of
`vars(source)` registering exactly those that are `Middleware`
subclasses. -/
def Processor.addMiddleware {S Req Data Resp Exc : Type}
    (p : Processor S Req Data Resp Exc)
    (middlewareTypes : List (S → Middleware Req Data Resp Exc))
    (source : Option (List (Attr S (Middleware Req Data Resp Exc)))) :
    Processor S Req Data Resp Exc :=
  let p1 := middlewareTypes.foldl registerType p
  match source with
  | none => p1
  | some attrs => attrs.foldl registerAttr p1

/-- The route object returned by `service.route(request)`: a binding-like
value exposing `responder` and `match` (the bound match arguments, named
`matchArgs` here because `match` is a Lean keyword). -/
structure Route (Req Rep M : Type) where
  responder : Req → M → Except Err Rep
  matchArgs : M

/-- The service collaborator as the `Middleware` base class consumes it:
a `route(request)` operation resolving a request to a `Route`, possibly
raising. -/
structure Service (Req Rep M : Type) where
  route : Req → Except Err (Route Req Rep M)

/-- `Middleware.next(request)` from `src/interest/middleware.py`: resolve
the request through `self.service.route`, then invoke the resolved
responder with the request and the bound match arguments. -/
def Middleware.next {Req Rep M : Type}
    (service : Service Req Rep M) (req : Req) : Except Err Rep :=
  match service.route req with
  | .error e => .error e
  | .ok rt => rt.responder req rt.matchArgs

/-- Default `Middleware.process(request)` from
`src/interest/middleware.py`: `return (yield from self.next(request))`. -/
def Middleware.process {Req Rep M : Type}
    (service : Service Req Rep M) (req : Req) : Except Err Rep :=
  Middleware.next service req

/-- Statement of the spec's words for the default continuation, for the
refinement comparison: resolve the request to a binding via the service's
route operation, then invoke the resolved binding's responder with the
request and the bound match arguments, returning the responder's reply. -/
def routeThenInvoke {Req Rep M : Type}
    (service : Service Req Rep M) (req : Req) : Except Err Rep :=
  (service.route req).bind fun rt => rt.responder req rt.matchArgs

/-- The `Chain` of `src/interest/helpers/chain.py`: an ordered list plus a
listener.  The Python listener is a zero-argument side-effecting closure
over the chain's owner; it is modelled as observing the chain contents and
transforming its own state `σ`, possibly raising. -/
structure Chain (α σ : Type) where
  listener : List α → σ → Except Err σ
  list : List α

/-- Index normalization of Python `list.insert`: a negative index counts
from the end, and the result is clamped into `[0, len]`. -/
def pyInsertIdx (n : Nat) (place : Int) : Nat :=
  if place < 0 then (max (place + n) 0).toNat else min place.toNat n

/-- Python `list.insert(place, value)` semantics: normalize the index,
then do the shifting insertion. -/
def pyInsert {α : Type} (l : List α) (place : Int) (value : α) : List α :=
  l.insertIdx (pyInsertIdx l.length place) value

/-- Positional access at an already-normalized (end-relative resolved)
index: still negative, or past the end, raises `IndexError`. -/
def pyIndexAt {α : Type} (l : List α) (j : Int) : Except Err α :=
  if j < 0 then .error .indexError
  else
    match l.get? j.toNat with
    | some v => .ok v
    | none => .error .indexError

/-- Python positional indexing `l[i]`: a negative index counts from the
end; out of range raises `IndexError`. -/
def pyIndex {α : Type} (l : List α) (i : Int) : Except Err α :=
  pyIndexAt l (if i < 0 then i + l.length else i)

/-- The name-scanning loop of `Chain.__getitem__`: return the first element
whose `name` equals the key, else raise `KeyError(param)`. -/
def lookupByName {α : Type} (name : α → String) (k : String) :
    List α → Except Err α
  | [] => .error (.keyError k)
  | v :: rest => if name v = k then .ok v else lookupByName name k rest

/-- A key passed to `Chain.__getitem__`: an integer index or a
(non-integer) name key, modelled as a string. -/
inductive Param where
  | int : Int → Param
  | key : String → Param

/-- `Chain.__getitem__(param)`: integers use direct positional access,
anything else scans for the first element with a matching `name`. -/
def Chain.getitem {α σ : Type} (c : Chain α σ) (name : α → String) :
    Param → Except Err α
  | .int i => pyIndex c.list i
  | .key k => lookupByName name k c.list

/-- `Chain.add(value, *, place=None)`: append when `place` is omitted,
else `list.insert(place, value)`; then invoke the listener once.  The
returned chain always carries the committed mutation; the second component
is the listener's outcome (its new state, or the exception it raised,
which `add` propagates). -/
def Chain.add {α σ : Type} (c : Chain α σ) (st : σ) (value : α)
    (place : Option Int) : Chain α σ × Except Err σ :=
  let newList :=
    match place with
    | none => c.list ++ [value]
    | some p => pyInsert c.list p value
  ({ c with list := newList }, c.listener newList st)

/-- Run a sequence of `add` calls, threading the listener state and
stopping at the first listener exception. -/
def Chain.addAll {α σ : Type} (c : Chain α σ) (st : σ) :
    List (α × Option Int) → Chain α σ × Except Err σ
  | [] => (c, .ok st)
  | (v, p) :: rest =>
    match c.add st v p with
    | (c', .ok st') => c'.addAll st' rest
    | (c', .error e) => (c', .error e)

/-- `len(chain)`. -/
def Chain.len {α σ : Type} (c : Chain α σ) : Nat := c.list.length

/-- An empty chain whose listener counts its own invocations. -/
def countingChain (α : Type) : Chain α Nat :=
  { listener := fun _ n => .ok (n + 1), list := [] }

/-- Python values that appear as constructor arguments in this program
(a service object, plain data, or some other non-`super` object).  No
value of this program's domain is an instance of the builtin `super`
type. -/
inductive PyVal where
  | service : PyVal
  | intVal : Int → PyVal
  | strVal : String → PyVal
  | obj : String → PyVal
deriving Repr, DecidableEq

/-- Whether a program value is an instance of the builtin `super` type:
none is. -/
def PyVal.isSuperInstance : PyVal → Bool
  | _ => false

/-- Model of calling the unbound slot wrapper `super.__init__` (the
attribute looked up on the builtin type `super` itself, not on a bound
`super()` object) with positional arguments: the wrapper demands at least
one argument and demands that this first argument be a `super` instance,
raising `TypeError` otherwise.  It never dispatches to any base class of
the caller. -/
def superDunderInit (args : List PyVal) : Except Err Unit :=
  match args with
  | [] => .error (.typeError "descriptor __init__ of super object needs an argument")
  | a :: _ =>
    if a.isSuperInstance then .ok ()
    else .error (.typeError "descriptor __init__ requires a super object")

/-- State of a successfully initialized `Middleware` base: the bound
service, set only by `Middleware.__init__`. -/
structure MiddlewareState where
  service : PyVal
deriving Repr, DecidableEq

/-- State a completed `SystemMiddleware.__init__` would produce: the
stored factory, and the base `Middleware` state when `Middleware.__init__`
ran (`none` when it never did). -/
structure SystemMiddlewareState where
  factory : PyVal
  base : Option MiddlewareState
deriving Repr, DecidableEq

/-- `SystemMiddleware.__init__(*args, factory, **kwargs)` from
`src/interest/system.py`: store the factory, then evaluate
`super.__init__(*args, **kwargs)` — on the builtin type `super`, not a
bound `super()` object — propagating the exception it raises; were that
call ever to return, `Middleware.__init__` would still not have run, so
the base state would stay unset. -/
def SystemMiddleware.init (args : List PyVal) (factory : PyVal) :
    Except Err SystemMiddlewareState :=
  match superDunderInit args with
  | .error e => .error e
  | .ok _ => .ok { factory := factory, base := none }

/-- Spec-side threading fold: apply a list of fallible transforms in
order, feeding each output to the next, aborting on the first raise. -/
def hookFold {β : Type} (hs : List (β → Except Err β)) (b : β) : Except Err β :=
  match hs with
  | [] => .ok b
  | h :: rest =>
    match h b with
    | .ok b' => hookFold rest b'
    | .error e => .error e

/-- Concrete middleware with no hook implemented, for examples. -/
def mwNone : Middleware Nat Nat Nat Nat := ⟨none, none, none, none⟩

/-- Concrete middleware whose `process_request` adds `k`. -/
def mwReqAdd (k : Nat) : Middleware Nat Nat Nat Nat :=
  { mwNone with processRequest? := some fun r => .ok (r + k) }

/-- Concrete middleware whose `process_request` raises. -/
def mwReqBoom : Middleware Nat Nat Nat Nat :=
  { mwNone with processRequest? := some fun _ => .error (.hookError "boom") }

/-- Concrete middleware whose `process_data` converts any reply to the
final response `7`. -/
def mwDataToResp : Middleware Nat Nat Nat Nat :=
  { mwNone with processData? := some fun _ _ => .ok (.response 7) }

/-- Concrete middleware whose `process_data` raises if ever invoked. -/
def mwDataBoom : Middleware Nat Nat Nat Nat :=
  { mwNone with processData? := some fun _ _ => .error (.hookError "m2") }

/-- Concrete middleware whose `process_response` doubles. -/
def mwRespDouble : Middleware Nat Nat Nat Nat :=
  { mwNone with processResponse? := some fun _ r => .ok (r * 2) }

/-- Concrete middleware whose `process_response` adds one. -/
def mwRespSucc : Middleware Nat Nat Nat Nat :=
  { mwNone with processResponse? := some fun _ r => .ok (r + 1) }

/-- Concrete middleware whose `process_exception` doubles. -/
def mwExcDouble : Middleware Nat Nat Nat Nat :=
  { mwNone with processException? := some fun _ x => .ok (x * 2) }

/-- Concrete middleware whose `process_exception` adds one. -/
def mwExcSucc : Middleware Nat Nat Nat Nat :=
  { mwNone with processException? := some fun _ x => .ok (x + 1) }

/-- Concrete chain with a counting listener and two elements. -/
def listenChain : Chain Nat Nat :=
  ⟨fun _ n => .ok (n + 1), [10, 20]⟩

/-- Concrete chain of named elements (name is the first component). -/
def namedChain : Chain (String × Nat) Unit :=
  ⟨fun _ u => .ok u, [("a", 1), ("b", 2), ("a", 3)]⟩

/-- Concrete chain whose listener always raises. -/
def boomChain : Chain Nat Unit :=
  ⟨fun _ _ => .error (.hookError "listener"), [1, 2]⟩

theorem pyInsertIdx_le (n : Nat) (p : Int) : pyInsertIdx n p ≤ n := by
  unfold pyInsertIdx
  split
  · rw [Int.toNat_le]
    apply max_le <;> omega
  · exact min_le_right _ _

theorem pyInsert_length {α : Type} (l : List α) (p : Int) (v : α) :
    (pyInsert l p v).length = l.length + 1 :=
  List.length_insertIdx (pyInsertIdx l.length p) l (pyInsertIdx_le _ _)

theorem pyInsert_mem {α : Type} (l : List α) (p : Int) (v : α) :
    v ∈ pyInsert l p v :=
  (List.mem_insertIdx (pyInsertIdx_le _ _)).mpr (Or.inl rfl)

theorem pyInsert_of_le {α : Type} (l : List α) (p : Int) (v : α)
    (h0 : 0 ≤ p) : pyInsert l p v = l.insertIdx (min p.toNat l.length) v := by
  unfold pyInsert pyInsertIdx
  rw [if_neg (by omega)]

theorem chainAdd_list {α σ : Type} (c : Chain α σ) (st : σ) (v : α)
    (p : Option Int) :
    (c.add st v p).1.list =
      match p with
      | none => c.list ++ [v]
      | some q => pyInsert c.list q v := by
  cases p <;> rfl

theorem chainAdd_length {α σ : Type} (c : Chain α σ) (st : σ) (v : α)
    (p : Option Int) :
    (c.add st v p).1.list.length = c.list.length + 1 := by
  cases p with
  | none => simp [Chain.add]
  | some q => simp [Chain.add, pyInsert_length]

theorem chainAdd_listener {α σ : Type} (c : Chain α σ) (st : σ) (v : α)
    (p : Option Int) :
    (c.add st v p).2 = c.listener (c.add st v p).1.list st := by
  cases p <;> rfl

theorem countingChain_addAll {α : Type} (l : List α) (k : Nat)
    (ops : List (α × Option Int)) :
    (Chain.addAll ⟨fun _ n => .ok (n + 1), l⟩ k ops).1.list.length
        = l.length + ops.length ∧
      (Chain.addAll ⟨fun _ n => .ok (n + 1), l⟩ k ops).2 = .ok (k + ops.length) := by
  induction ops generalizing l k with
  | nil => simp [Chain.addAll]
  | cons op rest ih =>
    obtain ⟨v, p⟩ := op
    have step :
        Chain.addAll (⟨fun _ n => .ok (n + 1), l⟩ : Chain α Nat) k ((v, p) :: rest) =
          Chain.addAll
            (⟨fun _ n => .ok (n + 1),
              match p with
              | none => l ++ [v]
              | some q => pyInsert l q v⟩ : Chain α Nat) (k + 1) rest := by
      cases p <;> rfl
    rw [step]
    cases p with
    | none =>
      have h := ih (l ++ [v]) (k + 1)
      refine ⟨?_, ?_⟩
      · rw [h.1]
        simp only [List.length_cons, List.length_append, List.length_nil]
        omega
      · rw [h.2]
        simp only [List.length_cons]
        congr 1
        omega
    | some q =>
      have h := ih (pyInsert l q v) (k + 1)
      refine ⟨?_, ?_⟩
      · rw [h.1, pyInsert_length]
        simp only [List.length_cons]
        omega
      · rw [h.2]
        simp only [List.length_cons]
        congr 1
        omega

theorem lookupByName_first {α : Type} (name : α → String) (k : String)
    (l₁ : List α) (v : α) (l₂ : List α)
    (h₁ : ∀ u ∈ l₁, name u ≠ k) (hv : name v = k) :
    lookupByName name k (l₁ ++ v :: l₂) = .ok v := by
  induction l₁ with
  | nil => simp [lookupByName, hv]
  | cons u rest ih =>
    have hu : name u ≠ k := h₁ u (List.mem_cons_self u rest)
    simp only [List.cons_append, lookupByName, if_neg hu]
    exact ih fun w hw => h₁ w (List.mem_cons_of_mem u hw)

theorem lookupByName_not_found {α : Type} (name : α → String) (k : String)
    (l : List α) (h : ∀ u ∈ l, name u ≠ k) :
    lookupByName name k l = .error (.keyError k) := by
  induction l with
  | nil => rfl
  | cons u rest ih =>
    have hu : name u ≠ k := h u (List.mem_cons_self u rest)
    simp only [lookupByName, if_neg hu]
    exact ih fun w hw => h w (List.mem_cons_of_mem u hw)

theorem processReplyGo_of_isResponse {Req Data Resp Exc : Type}
    (ms : List (Middleware Req Data Resp Exc)) (req : Req)
    (r : Reply Data Resp) (h : r.isResponse = true) :
    processReplyGo ms req r = .ok r := by
  cases ms with
  | nil => rfl
  | cons m rest => simp [processReplyGo, h]

theorem processReplyGo_append {Req Data Resp Exc : Type}
    (ms₁ ms₂ : List (Middleware Req Data Resp Exc)) (req : Req)
    (reply : Reply Data Resp) :
    processReplyGo (ms₁ ++ ms₂) req reply =
      match processReplyGo ms₁ req reply with
      | .ok r => processReplyGo ms₂ req r
      | .error e => .error e := by
  induction ms₁ generalizing reply with
  | nil => simp [processReplyGo]
  | cons m rest ih =>
    cases hr : reply.isResponse with
    | true =>
      simp [processReplyGo, hr, processReplyGo_of_isResponse ms₂ req reply hr]
    | false =>
      cases hd : m.processData? with
      | none => simpa [processReplyGo, hr, hd] using ih reply
      | some h =>
        cases hh : h req reply with
        | ok r' => simpa [processReplyGo, hr, hd, hh] using ih r'
        | error e => simp [processReplyGo, hr, hd, hh]

theorem processRequestGo_append {Req Data Resp Exc : Type}
    (ms₁ ms₂ : List (Middleware Req Data Resp Exc)) (req : Req) :
    processRequestGo (ms₁ ++ ms₂) req =
      match processRequestGo ms₁ req with
      | .ok r => processRequestGo ms₂ r
      | .error e => .error e := by
  induction ms₁ generalizing req with
  | nil => simp [processRequestGo]
  | cons m rest ih =>
    cases hm : m.processRequest? with
    | none => simpa [processRequestGo, hm] using ih req
    | some h =>
      cases hh : h req with
      | ok r' => simpa [processRequestGo, hm, hh] using ih r'
      | error e => simp [processRequestGo, hm, hh]

theorem processRequestGo_eq_hookFold {Req Data Resp Exc : Type}
    (ms : List (Middleware Req Data Resp Exc)) (req : Req) :
    processRequestGo ms req =
      hookFold (ms.filterMap fun m => m.processRequest?) req := by
  induction ms generalizing req with
  | nil => rfl
  | cons m rest ih =>
    cases hm : m.processRequest? with
    | none => simpa [processRequestGo, List.filterMap_cons, hm] using ih req
    | some h =>
      cases hh : h req with
      | ok r' =>
        simpa [processRequestGo, List.filterMap_cons, hm, hookFold, hh] using ih r'
      | error e => simp [processRequestGo, List.filterMap_cons, hm, hookFold, hh]

theorem processResponseGo_eq_hookFold {Req Data Resp Exc : Type}
    (ms : List (Middleware Req Data Resp Exc)) (req : Req) (resp : Resp) :
    processResponseGo ms req resp =
      hookFold ((ms.filterMap fun m => m.processResponse?).map fun h => h req)
        resp := by
  induction ms generalizing resp with
  | nil => rfl
  | cons m rest ih =>
    cases hm : m.processResponse? with
    | none => simpa [processResponseGo, List.filterMap_cons, hm] using ih resp
    | some h =>
      cases hh : h req resp with
      | ok r' =>
        simpa [processResponseGo, List.filterMap_cons, hm, hookFold, hh] using ih r'
      | error e =>
        simp [processResponseGo, List.filterMap_cons, hm, hookFold, hh]

theorem processExceptionGo_eq_hookFold {Req Data Resp Exc : Type}
    (ms : List (Middleware Req Data Resp Exc)) (req : Req) (exc : Exc) :
    processExceptionGo ms req exc =
      hookFold ((ms.filterMap fun m => m.processException?).map fun h => h req)
        exc := by
  induction ms generalizing exc with
  | nil => rfl
  | cons m rest ih =>
    cases hm : m.processException? with
    | none => simpa [processExceptionGo, List.filterMap_cons, hm] using ih exc
    | some h =>
      cases hh : h req exc with
      | ok x' =>
        simpa [processExceptionGo, List.filterMap_cons, hm, hookFold, hh] using ih x'
      | error e =>
        simp [processExceptionGo, List.filterMap_cons, hm, hookFold, hh]

theorem processResponseGo_total {Req Data Resp Exc : Type}
    (ms : List (Middleware Req Data Resp Exc)) (req : Req) (resp : Resp)
    (htot : ∀ m ∈ ms, ∀ h, m.processResponse? = some h →
      ∀ r, ∃ out, h req r = .ok out) :
    ∃ out, processResponseGo ms req resp = .ok out := by
  induction ms generalizing resp with
  | nil => exact ⟨resp, rfl⟩
  | cons m rest ih =>
    cases hm : m.processResponse? with
    | none =>
      simpa [processResponseGo, hm] using
        ih resp fun w hw => htot w (List.mem_cons_of_mem m hw)
    | some h =>
      obtain ⟨out, hout⟩ := htot m (List.mem_cons_self m rest) h hm resp
      simpa [processResponseGo, hm, hout] using
        ih out fun w hw => htot w (List.mem_cons_of_mem m hw)

theorem processExceptionGo_total {Req Data Resp Exc : Type}
    (ms : List (Middleware Req Data Resp Exc)) (req : Req) (exc : Exc)
    (htot : ∀ m ∈ ms, ∀ h, m.processException? = some h →
      ∀ x, ∃ out, h req x = .ok out) :
    ∃ out, processExceptionGo ms req exc = .ok out := by
  induction ms generalizing exc with
  | nil => exact ⟨exc, rfl⟩
  | cons m rest ih =>
    cases hm : m.processException? with
    | none =>
      simpa [processExceptionGo, hm] using
        ih exc fun w hw => htot w (List.mem_cons_of_mem m hw)
    | some h =>
      obtain ⟨out, hout⟩ := htot m (List.mem_cons_self m rest) h hm exc
      simpa [processExceptionGo, hm, hout] using
        ih out fun w hw => htot w (List.mem_cons_of_mem m hw)

theorem addMiddleware_types_fold {S Req Data Resp Exc : Type}
    (ts : List (S → Middleware Req Data Resp Exc))
    (p : Processor S Req Data Resp Exc) :
    (ts.foldl registerType p).middlewares
        = p.middlewares ++ ts.map (fun t => t p.service) ∧
      (ts.foldl registerType p).service = p.service := by
  induction ts generalizing p with
  | nil => simp
  | cons t rest ih =>
    have h := ih (registerType p t)
    refine ⟨?_, ?_⟩
    · rw [List.foldl_cons, h.1]
      simp [registerType, List.append_assoc]
    · rw [List.foldl_cons, h.2]
      rfl

theorem addMiddleware_source_fold {S Req Data Resp Exc : Type}
    (attrs : List (Attr S (Middleware Req Data Resp Exc)))
    (p : Processor S Req Data Resp Exc) :
    (attrs.foldl registerAttr p).middlewares
        = p.middlewares ++ attrs.filterMap (fun a =>
            match a with
            | .mwType t => some (t p.service)
            | .other => none) ∧
      (attrs.foldl registerAttr p).service = p.service := by
  induction attrs generalizing p with
  | nil => simp
  | cons a rest ih =>
    cases a with
    | mwType t =>
      have h := ih (registerType p t)
      refine ⟨?_, ?_⟩
      · rw [List.foldl_cons]
        show (rest.foldl registerAttr (registerType p t)).middlewares = _
        rw [h.1]
        simp [registerType, List.filterMap_cons, List.append_assoc]
      · rw [List.foldl_cons]
        show (rest.foldl registerAttr (registerType p t)).service = _
        rw [h.2]
        rfl
    | other =>
      have h := ih p
      refine ⟨?_, ?_⟩
      · rw [List.foldl_cons]
        show (rest.foldl registerAttr p).middlewares = _
        rw [h.1]
        simp [List.filterMap_cons]
      · rw [List.foldl_cons]
        exact h.2

/-- C1: `process_reply` iterates the middlewares in registration order
and, before invoking each middleware, tests whether the current reply is
already a final `Response`; if it is, iteration stops immediately — the
phase result does not depend on any later middleware, whose `process_data`
hook is therefore never invoked — and otherwise, when the middleware
implements `process_data`, the reply is replaced by that hook's return
value. -/
theorem processReply_early_stop {S Req Data Resp Exc : Type} (s : S)
    (req : Req) (reply : Reply Data Resp)
    (m : Middleware Req Data Resp Exc)
    (rest ms₁ ms₂ : List (Middleware Req Data Resp Exc))
    (r : Reply Data Resp) :
    (processReplyGo ms₁ req reply = .ok r → r.isResponse = true →
      Processor.processReply ⟨s, ms₁ ++ ms₂⟩ req reply =
        Processor.processReply ⟨s, ms₁⟩ req reply) ∧
    (reply.isResponse = true →
      processReplyGo (m :: rest) req reply = .ok reply) ∧
    (reply.isResponse = false →
      processReplyGo (m :: rest) req reply =
        match m.processData? with
        | none => processReplyGo rest req reply
        | some h =>
          match h req reply with
          | .ok reply' => processReplyGo rest req reply'
          | .error e => .error e) := by
  refine ⟨?_, ?_, ?_⟩
  · intro h1 h2
    simp [Processor.processReply, processReplyGo_append, h1,
      processReplyGo_of_isResponse ms₂ req r h2]
  · intro h
    simp [processReplyGo, h]
  · intro h
    simp [processReplyGo, h]

/-- Witness for C1: with `mwDataToResp` producing the final response `7`
and `mwDataBoom` (which would raise if invoked) registered after it,
`process_reply` returns as if `mwDataBoom` were absent, and the result is
`mwDataToResp`'s response. -/
theorem processReply_early_stop_witness :
    Processor.processReply
        (⟨(), [mwDataToResp, mwDataBoom]⟩ : Processor Unit Nat Nat Nat Nat) 0
        (.data 5) = .ok 7 := by
  have h := (processReply_early_stop () 0 (Reply.data 5) mwDataToResp []
    [mwDataToResp] [mwDataBoom] (Reply.response 7)).1 rfl rfl
  exact h.trans rfl

/-- C2: `process_reply` returns a value exactly when the loop left a final
`Response`; whenever the carried value after the loop is still plain data
— including for a processor with zero middlewares — it raises the
`TypeError` contract violation and never returns a non-final value. -/
theorem processReply_final_or_typeError {S Req Data Resp Exc : Type} (s : S)
    (ms : List (Middleware Req Data Resp Exc)) (req : Req)
    (reply : Reply Data Resp) :
    (∀ resp : Resp,
      Processor.processReply ⟨s, ms⟩ req reply = .ok resp ↔
        processReplyGo ms req reply = .ok (.response resp)) ∧
    (∀ d : Data, processReplyGo ms req reply = .ok (.data d) →
      Processor.processReply ⟨s, ms⟩ req reply =
        .error
          (.typeError "Middlewares have not properly converted data to response")) := by
  cases hgo : processReplyGo ms req reply with
  | error e =>
    refine ⟨fun resp => ?_, fun d hd => ?_⟩
    · simp [Processor.processReply, hgo]
    · exact Except.noConfusion hd
  | ok r =>
    cases r with
    | data d =>
      refine ⟨fun resp => ?_, fun d' hd' => ?_⟩
      · simp [Processor.processReply, hgo]
      · simp [Processor.processReply, hgo]
    | response x =>
      refine ⟨fun resp => ?_, fun d hd => ?_⟩
      · simp [Processor.processReply, hgo]
      · simp at hd

/-- Witness for C2: a processor with zero middlewares and a non-final
reply fails with the documented `TypeError`. -/
theorem processReply_final_or_typeError_witness :
    Processor.processReply (⟨(), []⟩ : Processor Unit Nat Nat Nat Nat) 0
        (.data 0) =
      .error
        (.typeError "Middlewares have not properly converted data to response") :=
  (processReply_final_or_typeError () [] 0 (.data 0)).2 0 rfl

/-- C3: `process_request` applies exactly the `process_request` hooks of
the implementing middlewares, in registration order, threading each hook's
return value into the next (non-implementing middlewares contribute
nothing), and a hook that raises aborts the phase immediately with that
error. -/
theorem processRequest_implementing_subset {S Req Data Resp Exc : Type}
    (s : S) (ms ms₁ ms₂ : List (Middleware Req Data Resp Exc))
    (m : Middleware Req Data Resp Exc) (req : Req) :
    (Processor.processRequest ⟨s, ms⟩ req =
      hookFold (ms.filterMap fun mw => mw.processRequest?) req) ∧
    (∀ (h : Req → Except Err Req) (r : Req) (e : Err),
      m.processRequest? = some h →
      processRequestGo ms₁ req = .ok r →
      h r = .error e →
      Processor.processRequest ⟨s, ms₁ ++ m :: ms₂⟩ req = .error e) := by
  refine ⟨processRequestGo_eq_hookFold ms req, ?_⟩
  intro h r e hm h1 he
  simp [Processor.processRequest, processRequestGo_append, h1,
    processRequestGo, hm, he]

/-- Witness for C3: three middlewares of which the middle one does not
implement `process_request` thread `10 ↦ 11 ↦ 13`; a raising hook aborts
the phase with its error. -/
theorem processRequest_implementing_subset_witness :
    Processor.processRequest
        (⟨(), [mwReqAdd 1, mwNone, mwReqAdd 2]⟩ :
          Processor Unit Nat Nat Nat Nat) 10 = .ok 13 ∧
      Processor.processRequest
        (⟨(), [mwReqAdd 1, mwReqBoom, mwReqAdd 2]⟩ :
          Processor Unit Nat Nat Nat Nat) 10 = .error (.hookError "boom") := by
  constructor
  · exact ((processRequest_implementing_subset ()
      [mwReqAdd 1, mwNone, mwReqAdd 2] [] [] mwNone 10).1).trans rfl
  · exact (processRequest_implementing_subset () [] [mwReqAdd 1] [mwReqAdd 2]
      mwReqBoom 10).2 (fun _ => .error (.hookError "boom")) 11
      (.hookError "boom") rfl rfl rfl

/-- C4: `process_response` and `process_exception` apply exactly the
hooks of the implementing middlewares, in reverse registration order,
threading each hook's return value into the next; there is no
value-based early termination, so when every implementing hook returns
normally the phase completes normally, every implementing middleware
having been applied. -/
theorem processResponse_exception_reverse {S Req Data Resp Exc : Type}
    (s : S) (ms : List (Middleware Req Data Resp Exc)) (req : Req)
    (resp : Resp) (exc : Exc) :
    (Processor.processResponse ⟨s, ms⟩ req resp =
      hookFold ((ms.reverse.filterMap fun mw => mw.processResponse?).map
        fun h => h req) resp) ∧
    (Processor.processException ⟨s, ms⟩ req exc =
      hookFold ((ms.reverse.filterMap fun mw => mw.processException?).map
        fun h => h req) exc) ∧
    ((∀ mw ∈ ms, ∀ h, mw.processResponse? = some h →
        ∀ r, ∃ out, h req r = .ok out) →
      ∃ out, Processor.processResponse ⟨s, ms⟩ req resp = .ok out) ∧
    ((∀ mw ∈ ms, ∀ h, mw.processException? = some h →
        ∀ x, ∃ out, h req x = .ok out) →
      ∃ out, Processor.processException ⟨s, ms⟩ req exc = .ok out) := by
  refine ⟨processResponseGo_eq_hookFold ms.reverse req resp,
    processExceptionGo_eq_hookFold ms.reverse req exc, ?_, ?_⟩
  · intro htot
    exact processResponseGo_total ms.reverse req resp fun mw hmw =>
      htot mw (List.mem_reverse.mp hmw)
  · intro htot
    exact processExceptionGo_total ms.reverse req exc fun mw hmw =>
      htot mw (List.mem_reverse.mp hmw)

/-- Witness for C4: with a doubling middleware registered first and an
adding-one middleware registered last, both backward phases apply the last
middleware first (`(5+1)*2 = 12`, not `5*2+1 = 11`), and with all hooks
total both phases complete normally. -/
theorem processResponse_exception_reverse_witness :
    Processor.processResponse
        (⟨(), [mwRespDouble, mwNone, mwRespSucc]⟩ :
          Processor Unit Nat Nat Nat Nat) 0 5 = .ok 12 ∧
      Processor.processException
        (⟨(), [mwExcDouble, mwNone, mwExcSucc]⟩ :
          Processor Unit Nat Nat Nat Nat) 0 5 = .ok 12 ∧
      (∃ out, Processor.processResponse
        (⟨(), [mwRespDouble, mwRespSucc]⟩ :
          Processor Unit Nat Nat Nat Nat) 0 3 = .ok out) ∧
      (∃ out, Processor.processException
        (⟨(), [mwExcDouble, mwExcSucc]⟩ :
          Processor Unit Nat Nat Nat Nat) 0 3 = .ok out) := by
  refine ⟨((processResponse_exception_reverse ()
      [mwRespDouble, mwNone, mwRespSucc] 0 5 0).1).trans rfl,
    ((processResponse_exception_reverse ()
      [mwExcDouble, mwNone, mwExcSucc] 0 0 5).2.1).trans rfl, ?_, ?_⟩
  · refine (processResponse_exception_reverse ()
      [mwRespDouble, mwRespSucc] 0 3 0).2.2.1 ?_
    intro mw hmw h hh r
    rcases List.mem_cons.mp hmw with h1 | hmw'
    · subst h1
      injection hh with h2
      subst h2
      exact ⟨r * 2, rfl⟩
    · rcases List.mem_cons.mp hmw' with h1 | hmw''
      · subst h1
        injection hh with h2
        subst h2
        exact ⟨r + 1, rfl⟩
      · cases hmw''
  · refine (processResponse_exception_reverse ()
      [mwExcDouble, mwExcSucc] 0 0 3).2.2.2 ?_
    intro mw hmw h hh x
    rcases List.mem_cons.mp hmw with h1 | hmw'
    · subst h1
      injection hh with h2
      subst h2
      exact ⟨x * 2, rfl⟩
    · rcases List.mem_cons.mp hmw' with h1 | hmw''
      · subst h1
        injection hh with h2
        subst h2
        exact ⟨x + 1, rfl⟩
      · cases hmw''

/-- C5: `add` with `place` omitted appends; `add` with an in-range place
inserts at that position shifting subsequent elements right (ordinary
list-insert semantics); every `add` grows the length by exactly one, so
after N adds from empty the length is N; and the listener is invoked
exactly once per `add`, synchronously, on the already-committed
post-mutation state, its outcome being what `add` returns — so with a
counting listener N adds yield count N. -/
theorem chain_add_semantics {α σ : Type} (c : Chain α σ) (st : σ) (v : α)
    (p : Int) (ops : List (α × Option Int)) :
    ((c.add st v none).1.list = c.list ++ [v]) ∧
    (0 ≤ p → p.toNat ≤ c.list.length →
      (c.add st v (some p)).1.list = c.list.insertIdx p.toNat v) ∧
    (∀ q : Option Int, (c.add st v q).1.list.length = c.list.length + 1) ∧
    (∀ q : Option Int,
      (c.add st v q).2 = c.listener (c.add st v q).1.list st) ∧
    ((Chain.addAll (countingChain α) 0 ops).1.len = ops.length ∧
      (Chain.addAll (countingChain α) 0 ops).2 = .ok ops.length) := by
  refine ⟨rfl, ?_, chainAdd_length c st v, chainAdd_listener c st v, ?_, ?_⟩
  · intro h0 hlen
    show pyInsert c.list p v = _
    rw [pyInsert_of_le c.list p v h0, min_eq_left hlen]
  · have h := countingChain_addAll (α := α) [] 0 ops
    simpa [Chain.len, countingChain] using h.1
  · have h := countingChain_addAll (α := α) [] 0 ops
    simpa [countingChain] using h.2

/-- Witness for C5: inserting at place 1 into `[10, 20]` gives
`[10, 99, 20]`, and a run of three adds (append, insert at 0, insert at an
out-of-range place) on an empty counting chain yields length 3 and
exactly 3 listener invocations. -/
theorem chain_add_semantics_witness :
    (listenChain.add 0 99 (some 1)).1.list = [10, 99, 20] ∧
      (Chain.addAll (countingChain Nat) 0
        [(1, none), (2, some 0), (3, some 99)]).1.len = 3 ∧
      (Chain.addAll (countingChain Nat) 0
        [(1, none), (2, some 0), (3, some 99)]).2 = .ok 3 := by
  have h := chain_add_semantics listenChain 0 99 1
    [(1, none), (2, some 0), (3, some 99)]
  refine ⟨?_, h.2.2.2.2.1, h.2.2.2.2.2⟩
  exact (h.2.1 (by decide) (by decide)).trans rfl

/-- C6: indexing a chain with a non-integer key scans the stored order and
returns the first element whose name equals the key, raising
`KeyError(key)` when no name matches; indexing with an integer is
positional, with Python's negative-index convention and `IndexError` out
of range on either side. -/
theorem chain_getitem_semantics {α σ : Type} (c : Chain α σ)
    (name : α → String) (k : String) (i : Int) :
    (∀ l₁ (v : α) l₂, c.list = l₁ ++ v :: l₂ → (∀ u ∈ l₁, name u ≠ k) →
      name v = k → c.getitem name (.key k) = .ok v) ∧
    ((∀ u ∈ c.list, name u ≠ k) →
      c.getitem name (.key k) = .error (.keyError k)) ∧
    (∀ v : α, 0 ≤ i → c.list.get? i.toNat = some v →
      c.getitem name (.int i) = .ok v) ∧
    (∀ v : α, i < 0 → 0 ≤ i + c.list.length →
      c.list.get? (i + c.list.length).toNat = some v →
      c.getitem name (.int i) = .ok v) ∧
    ((c.list.length : Int) ≤ i →
      c.getitem name (.int i) = .error .indexError) ∧
    (i + c.list.length < 0 →
      c.getitem name (.int i) = .error .indexError) := by
  refine ⟨?_, ?_, ?_, ?_, ?_, ?_⟩
  · intro l₁ v l₂ hsplit h₁ hv
    show lookupByName name k c.list = .ok v
    rw [hsplit]
    exact lookupByName_first name k l₁ v l₂ h₁ hv
  · intro h
    exact lookupByName_not_found name k c.list h
  · intro v h0 hget
    rw [List.get?_eq_getElem?] at hget
    show pyIndex c.list i = .ok v
    simp [pyIndex, pyIndexAt, if_neg (by omega : ¬ i < 0), hget]
  · intro v hneg hge hget
    rw [List.get?_eq_getElem?] at hget
    show pyIndex c.list i = .ok v
    simp [pyIndex, pyIndexAt, if_pos hneg,
      if_neg (by omega : ¬ i + (c.list.length : Int) < 0), hget]
  · intro hge
    show pyIndex c.list i = .error .indexError
    have h0 : ¬ i < 0 := by
      have : (0 : Int) ≤ c.list.length := by positivity
      omega
    have hnone : c.list.get? i.toNat = none := by
      refine List.get?_eq_none.mpr ?_
      omega
    rw [List.get?_eq_getElem?] at hnone
    simp [pyIndex, pyIndexAt, if_neg h0, hnone]
  · intro hlt
    show pyIndex c.list i = .error .indexError
    have hneg : i < 0 := by
      have : (0 : Int) ≤ c.list.length := by positivity
      omega
    simp [pyIndex, pyIndexAt, if_pos hneg, if_pos hlt]

/-- Witness for C6: on a chain named `a, b, a`, key `"a"` returns the
first `a`, key `"c"` raises `KeyError("c")`, index `-1` returns the last
element, index `1` the second, and indices `3` and `-4` raise
`IndexError`. -/
theorem chain_getitem_semantics_witness :
    namedChain.getitem Prod.fst (.key "a") = .ok ("a", 1) ∧
      namedChain.getitem Prod.fst (.key "c") = .error (.keyError "c") ∧
      namedChain.getitem Prod.fst (.int 1) = .ok ("b", 2) ∧
      namedChain.getitem Prod.fst (.int (-1)) = .ok ("a", 3) ∧
      namedChain.getitem Prod.fst (.int 3) = .error .indexError ∧
      namedChain.getitem Prod.fst (.int (-4)) = .error .indexError := by
  refine ⟨?_, ?_, ?_, ?_, ?_, ?_⟩
  · exact (chain_getitem_semantics namedChain Prod.fst "a" 0).1 []
      ("a", 1) [("b", 2), ("a", 3)] rfl (by simp) rfl
  · exact (chain_getitem_semantics namedChain Prod.fst "c" 0).2.1 (by decide)
  · exact (chain_getitem_semantics namedChain Prod.fst "c" 1).2.2.1
      ("b", 2) (by decide) rfl
  · exact (chain_getitem_semantics namedChain Prod.fst "c" (-1)).2.2.2.1
      ("a", 3) (by decide) (by decide) rfl
  · exact (chain_getitem_semantics namedChain Prod.fst "c" 3).2.2.2.2.1
      (by decide)
  · exact (chain_getitem_semantics namedChain Prod.fst "c" (-4)).2.2.2.2.2
      (by decide)

/-- C7: `add_middleware` appends one instance, bound to the service, per
explicitly given middleware type, in the order given; with a source, the
attributes of the source that are `Middleware` subclasses are additionally
registered and every other attribute is silently ignored; the service is
untouched. -/
theorem addMiddleware_explicit_and_source {S Req Data Resp Exc : Type}
    (p : Processor S Req Data Resp Exc)
    (ts : List (S → Middleware Req Data Resp Exc))
    (attrs : List (Attr S (Middleware Req Data Resp Exc))) :
    ((p.addMiddleware ts none).middlewares
        = p.middlewares ++ ts.map fun t => t p.service) ∧
    ((p.addMiddleware ts none).service = p.service) ∧
    ((p.addMiddleware ts (some attrs)).middlewares
        = p.middlewares ++ (ts.map fun t => t p.service)
            ++ attrs.filterMap fun a =>
              match a with
              | .mwType t => some (t p.service)
              | .other => none) ∧
    ((p.addMiddleware ts (some attrs)).service = p.service) := by
  have hts := addMiddleware_types_fold ts p
  have hsrc := addMiddleware_source_fold attrs (ts.foldl registerType p)
  refine ⟨hts.1, hts.2, ?_, ?_⟩
  · show (attrs.foldl registerAttr (ts.foldl registerType p)).middlewares = _
    rw [hsrc.1, hts.1]
    simp only [hts.2, List.append_assoc]
  · show (attrs.foldl registerAttr (ts.foldl registerType p)).service = _
    rw [hsrc.2, hts.2]

/-- C8: the default `Middleware.process(request)` behaves identically to
`Middleware.next(request)`, and both equal the spec's description: resolve
the request to a binding via the service's route operation, then invoke
the resolved binding's responder with the request and the bound match
arguments, returning the responder's reply. -/
theorem middleware_process_eq_next {Req Rep M : Type}
    (service : Service Req Rep M) (req : Req) :
    Middleware.process service req = Middleware.next service req ∧
      Middleware.process service req = routeThenInvoke service req ∧
      Middleware.next service req = routeThenInvoke service req := by
  refine ⟨rfl, ?_, ?_⟩ <;>
    cases hr : service.route req <;>
      simp [Middleware.process, Middleware.next, routeThenInvoke,
        Except.bind, hr]

/-- C9: `add` commits the insertion before invoking the listener: when the
listener raises, the exception is what `add` returns, yet the element is
already inserted and the chain length has already grown by one — `add` is
not atomic with respect to listener failure. -/
theorem chain_add_commits_before_listener {α σ : Type} (c : Chain α σ)
    (st : σ) (v : α) (p : Option Int) (e : Err)
    (h : c.listener (c.add st v p).1.list st = .error e) :
    (c.add st v p).2 = .error e ∧
      (c.add st v p).1.list.length = c.list.length + 1 ∧
      v ∈ (c.add st v p).1.list := by
  refine ⟨?_, chainAdd_length c st v p, ?_⟩
  · rw [chainAdd_listener c st v p]
    exact h
  · rw [chainAdd_list c st v p]
    cases p with
    | none => simp
    | some q => exact pyInsert_mem c.list q v

/-- Witness for C9: on a chain whose listener always raises, `add`
propagates the listener's error while the element is nonetheless inserted
and the length has grown from 2 to 3. -/
theorem chain_add_commits_before_listener_witness :
    (boomChain.add () 3 none).2 = .error (.hookError "listener") ∧
      (boomChain.add () 3 none).1.list.length = 3 ∧
      3 ∈ (boomChain.add () 3 none).1.list := by
  have h := chain_add_commits_before_listener boomChain () 3 none
    (.hookError "listener") rfl
  exact ⟨h.1, h.2.1, h.2.2⟩

/-- C10: for every argument list drawn from the program's value domain
(none of whose values is a `super` instance), `SystemMiddleware.__init__`
raises a `TypeError` from its `super.__init__(*args, **kwargs)` call on
the builtin type `super` itself, so the base `Middleware` initializer is
never reached and no `SystemMiddleware` instance is ever successfully
created. -/
theorem systemMiddleware_init_always_raises (args : List PyVal)
    (factory : PyVal) :
    (∃ msg, SystemMiddleware.init args factory = .error (.typeError msg)) ∧
      ∀ st, SystemMiddleware.init args factory ≠ .ok st := by
  have hmain : ∃ msg,
      SystemMiddleware.init args factory = .error (.typeError msg) := by
    cases args with
    | nil => exact ⟨_, rfl⟩
    | cons a rest => exact ⟨_, rfl⟩
  refine ⟨hmain, ?_⟩
  intro st hok
  obtain ⟨msg, hmsg⟩ := hmain
  rw [hok] at hmsg
  exact Except.noConfusion hmsg

/-- Witness for C10: the intended call `SystemMiddleware(service,
factory=...)` does not produce an instance. -/
theorem systemMiddleware_init_always_raises_witness :
    SystemMiddleware.init [PyVal.service] (PyVal.obj "factory") ≠
      .ok ⟨PyVal.obj "factory", none⟩ :=
  (systemMiddleware_init_always_raises [PyVal.service]
    (PyVal.obj "factory")).2 ⟨PyVal.obj "factory", none⟩

end Interest
